import Mathlib

/-!
Verification development for the tabular reconciliation engine embedded in
src/app.py: type inference (convert_column_types), the merge module
(row append, column concat, key join), and the match module (per-field
aggregation of a lookup table followed by a left join and match statistics).

Cells are modelled by `Value` (pandas object, int64, float64, datetime64 and
NaN/NaT cells), tables row-major by `Table`.  Machine floats are modelled as
rationals; the string fragments accepted by the modelled parsers are the
fragments the verified claims exercise, with each simplification noted at
the definition it concerns.
-/

/-- Cell values: object cells are strings, int64 cells integers, float64
cells rationals, datetime cells day-encoded integers, NaN/NaT is Missing. -/
inductive Value where
  | vstr (s : String)
  | vint (n : Int)
  | vfloat (q : ℚ)
  | vdate (d : Int)
  | vmissing
  deriving DecidableEq

/-- A cell is missing exactly when it is NaN/NaT. -/
def Value.isMissing : Value → Bool
  | .vmissing => true
  | _ => false

/-- Python str() of a cell, as produced by Series.astype(str).  Integral
floats print with a trailing ".0"; the decimal rendering of non-integral
floats and of timestamps is not exercised by any verified claim and is
rendered schematically. -/
def pyStr : Value → String
  | .vstr s => s
  | .vint n => toString n
  | .vfloat q => if q.den = 1 then toString q.num ++ ".0" else toString q
  | .vdate d => "ts:" ++ toString d
  | .vmissing => "nan"

/-- Strip leading and trailing whitespace from a character list. -/
def trimChars (cs : List Char) : List Char :=
  ((cs.dropWhile Char.isWhitespace).reverse.dropWhile Char.isWhitespace).reverse

/-- astype(str).str.strip() applied to one cell (src/app.py lines 237-238,
386-387, 482-483). -/
def normCell (v : Value) : String := String.mk (trimChars (pyStr v).data)

/-- Split a character list on a separator character (every occurrence). -/
def splitOnChar (sep : Char) : List Char → List (List Char)
  | [] => [[]]
  | c :: rest =>
      if c = sep then [] :: splitOnChar sep rest
      else
        match splitOnChar sep rest with
        | [] => [[c]]
        | g :: gs => (c :: g) :: gs

/-- All characters are decimal digits and the list is nonempty. -/
def allDigits (cs : List Char) : Bool := decide (0 < cs.length) && cs.all Char.isDigit

/-- Decimal reading of a digit list. -/
def digitsToNat (cs : List Char) : Nat := cs.foldl (fun n c => n * 10 + (c.toNat - 48)) 0

/-- Models the permissive date parsing of pd.to_datetime on the ISO form
YYYY-MM-DD; formats beyond this subset are not exercised by any verified
claim.  Unparseable strings yield none. -/
def parseDateStr (s : String) : Option Int :=
  match splitOnChar '-' s.data with
  | [y, m, d] =>
      if allDigits y && allDigits m && allDigits d && y.length == 4
          && Nat.ble m.length 2 && Nat.ble d.length 2
          && Nat.ble 1 (digitsToNat m) && Nat.ble (digitsToNat m) 12
          && Nat.ble 1 (digitsToNat d) && Nat.ble (digitsToNat d) 31 then
        some ((digitsToNat y : Int) * 10000 + (digitsToNat m : Int) * 100 + (digitsToNat d : Int))
      else none
  | _ => none

/-- Per-cell behaviour of pd.to_datetime(..., errors=coerce) on an object
column (src/app.py line 79): strings parse or coerce to Missing, integer
cells are epoch offsets, Missing stays NaT.  Fractional epoch offsets are
outside the modelled subset. -/
def parseDateCell : Value → Value
  | .vmissing => .vmissing
  | .vstr s =>
      match parseDateStr s with
      | some d => .vdate d
      | none => .vmissing
  | .vint n => .vdate n
  | .vfloat _ => .vmissing
  | .vdate d => .vdate d

/-- Decimal reading of a nonempty digit list, none otherwise. -/
def parseNatDigits (cs : List Char) : Option Nat :=
  if allDigits cs then some (digitsToNat cs) else none

/-- Models pd.to_numeric on one cell string: optional minus sign, decimal
integer part, optional fractional part.  Scientific notation et al. are
outside the modelled subset and yield none. -/
def parseNumStr (s : String) : Option Value :=
  let signed : Bool × List Char :=
    match s.data with
    | '-' :: rest => (true, rest)
    | cs => (false, cs)
  let ip := signed.2.takeWhile (fun c => c != '.')
  match signed.2.dropWhile (fun c => c != '.') with
  | [] =>
      (parseNatDigits ip).map (fun n =>
        Value.vint (if signed.1 then -(n : Int) else (n : Int)))
  | _ :: frac =>
      match parseNatDigits ip, parseNatDigits frac with
      | some n, some f =>
          let q : ℚ := (n : ℚ) + (f : ℚ) / ((10 ^ frac.length : Nat) : ℚ)
          some (Value.vfloat (if signed.1 then -q else q))
      | _, _ => none

/-- Per-cell behaviour of pd.to_numeric(..., errors=coerce) (src/app.py
line 88): strings parse or coerce to Missing, numbers pass through, Missing
stays NaN.  Timestamp cells do not occur in object columns in the verified
claims and coerce to Missing. -/
def parseNumCell : Value → Value
  | .vmissing => .vmissing
  | .vstr s => (parseNumStr s).getD .vmissing
  | .vint n => .vint n
  | .vfloat q => .vfloat q
  | .vdate _ => .vmissing

/-- Pandas column dtypes relevant to the engine.  The source only branches
on object versus non-object, and pd.to_numeric chooses int64/float64 by
itself, so one numeric dtype suffices. -/
inductive Dtype where
  | object
  | numeric
  | datetime
  deriving DecidableEq

/-- notna().sum() of a column. -/
def nonMissingCount (vs : List Value) : Nat := vs.countP (fun v => !v.isMissing)

/-- Body of the per-column loop of convert_column_types (src/app.py lines
74-92), with the two sequential try blocks flattened into one conditional:
on an object column the date conversion is adopted when it yields at least
one valid date; otherwise the numeric conversion is adopted when the parsed
count exceeds len(df) * 0.5, i.e. half of the full column length, missing
cells included.  Non-object columns are untouched (the second try block
re-checks the dtype, so a freshly adopted date column is not re-read as
numeric). -/
def convertColumn (d : Dtype) (vs : List Value) : Dtype × List Value :=
  if d = Dtype.object ∧ 0 < nonMissingCount (vs.map parseDateCell) then
    (Dtype.datetime, vs.map parseDateCell)
  else if d = Dtype.object ∧
      (vs.length : ℚ) * (1 / 2) < (nonMissingCount (vs.map parseNumCell) : ℚ) then
    (Dtype.numeric, vs.map parseNumCell)
  else (d, vs)

/-- convert_column_types itself: the per-column body applied to every column
of the frame independently. -/
def convert_column_types (cols : List (String × Dtype × List Value)) :
    List (String × Dtype × List Value) :=
  cols.map (fun c => (c.1, convertColumn c.2.1 c.2.2))

/-- Post-merge date re-scan of one column (src/app.py lines 242-250):
pd.to_datetime with errors=ignore converts an object column only when every
cell parses (missing cells coerce to NaT without counting as failures);
any per-cell failure leaves the whole column unchanged. -/
def rescanColumn (d : Dtype) (vs : List Value) : Dtype × List Value :=
  if d = Dtype.object ∧ vs.all (fun v => v.isMissing || !(parseDateCell v).isMissing) = true then
    (Dtype.datetime, vs.map parseDateCell)
  else (d, vs)

/-- The numeric-adoption condition as the spec words it, for comparison with
convertColumn: the fraction of successfully parsed values among the
column's non-missing values exceeds 0.5. -/
def specNumericAdopt (vs : List Value) : Prop :=
  (nonMissingCount vs : ℚ) * (1 / 2) < (nonMissingCount (vs.map parseNumCell) : ℚ)

instance (vs : List Value) : Decidable (specNumericAdopt vs) := by
  unfold specNumericAdopt
  infer_instance

/-- Ten cells: six missing, three numeric strings, one non-numeric string.
Among the four non-missing cells three parse (3/4 > 1/2, so the spec's
condition holds) but 3 is not more than half of the ten rows. -/
def exC2 : List Value :=
  [Value.vmissing, Value.vmissing, Value.vmissing, Value.vmissing, Value.vmissing,
   Value.vmissing, Value.vstr "1", Value.vstr "2", Value.vstr "3", Value.vstr "x"]

/-- Helper: nat comparison form of the source's len(df) * 0.5 threshold. -/
lemma half_lt_iff (a b : Nat) : ((b : ℚ) * (1 / 2) < (a : ℚ)) ↔ b < 2 * a := by
  rw [mul_one_div, div_lt_iff₀ (by norm_num : (0 : ℚ) < 2), mul_comm]
  exact_mod_cast Iff.rfl

/-- Helper: on an object column where date inference finds nothing,
convertColumn reduces to the numeric threshold test in nat form. -/
lemma convertColumn_no_date (vs : List Value)
    (hdate : nonMissingCount (vs.map parseDateCell) = 0) :
    convertColumn Dtype.object vs =
      if vs.length < 2 * nonMissingCount (vs.map parseNumCell) then
        (Dtype.numeric, vs.map parseNumCell)
      else (Dtype.object, vs) := by
  have hd : ¬ (Dtype.object = Dtype.object ∧ 0 < nonMissingCount (vs.map parseDateCell)) := by
    rw [hdate]
    simp
  unfold convertColumn
  rw [if_neg hd]
  by_cases hn : vs.length < 2 * nonMissingCount (vs.map parseNumCell)
  · rw [if_pos ⟨rfl, (half_lt_iff _ _).mpr hn⟩, if_pos hn]
  · rw [if_neg (fun h => hn ((half_lt_iff _ _).mp h.2)), if_neg hn]

/-- C2: the claim's adoption condition (fraction among non-missing values
exceeds 0.5) holds on exC2, yet convert_column_types leaves the column as
object/String because the source compares the parsed count against half of
the full column length including missing cells. -/
theorem C2_counterexample :
    convertColumn Dtype.object exC2 = (Dtype.object, exC2) ∧ specNumericAdopt exC2 := by
  constructor
  · rw [convertColumn_no_date exC2 (by decide)]
    rw [if_neg (by decide)]
  · exact (half_lt_iff _ _).mpr (by decide)

/-- C2, amended: on an object column where date inference does not apply,
the column is adopted as numeric iff the count of successfully parsed values
exceeds half of the column's total length (the denominator counts missing
cells too, unlike the claim's non-missing denominator); on adoption unparsed
values become Missing, otherwise the column stays object/String unchanged. -/
theorem C2_amended (vs : List Value)
    (hdate : nonMissingCount (vs.map parseDateCell) = 0) :
    ((convertColumn Dtype.object vs).1 = Dtype.numeric ↔
      vs.length < 2 * nonMissingCount (vs.map parseNumCell)) ∧
    (vs.length < 2 * nonMissingCount (vs.map parseNumCell) →
      convertColumn Dtype.object vs = (Dtype.numeric, vs.map parseNumCell)) ∧
    (¬ vs.length < 2 * nonMissingCount (vs.map parseNumCell) →
      convertColumn Dtype.object vs = (Dtype.object, vs)) := by
  rw [convertColumn_no_date vs hdate]
  by_cases hn : vs.length < 2 * nonMissingCount (vs.map parseNumCell)
  · rw [if_pos hn]
    exact ⟨⟨fun _ => hn, fun _ => rfl⟩, fun _ => rfl, fun h => absurd hn h⟩
  · rw [if_neg hn]
    exact ⟨⟨fun h1 => absurd h1 (by simp), fun h1 => absurd h1 hn⟩,
      fun h1 => absurd h1 hn, fun _ => rfl⟩

/-- Witness for C2_amended at a concrete two-cell column of numeric
strings. -/
theorem C2_amended_witness :
    ((convertColumn Dtype.object [Value.vstr "7", Value.vstr "8"]).1 = Dtype.numeric ↔
      ([Value.vstr "7", Value.vstr "8"] : List Value).length <
        2 * nonMissingCount (([Value.vstr "7", Value.vstr "8"] : List Value).map parseNumCell)) ∧
    (([Value.vstr "7", Value.vstr "8"] : List Value).length <
        2 * nonMissingCount (([Value.vstr "7", Value.vstr "8"] : List Value).map parseNumCell) →
      convertColumn Dtype.object [Value.vstr "7", Value.vstr "8"] =
        (Dtype.numeric, ([Value.vstr "7", Value.vstr "8"] : List Value).map parseNumCell)) ∧
    (¬ ([Value.vstr "7", Value.vstr "8"] : List Value).length <
        2 * nonMissingCount (([Value.vstr "7", Value.vstr "8"] : List Value).map parseNumCell) →
      convertColumn Dtype.object [Value.vstr "7", Value.vstr "8"] =
        (Dtype.object, [Value.vstr "7", Value.vstr "8"])) :=
  C2_amended [Value.vstr "7", Value.vstr "8"] (by decide)

/-- Mapping a missing-preserving cell function preserves a missing position
(positions read with getD and the Missing default). -/
lemma getD_map_missing (f : Value → Value) (hf : f Value.vmissing = Value.vmissing) :
    ∀ (vs : List Value) (i : Nat), vs.getD i Value.vmissing = Value.vmissing →
      (vs.map f).getD i Value.vmissing = Value.vmissing := by
  intro vs
  induction vs with
  | nil =>
      intro i h
      simp
  | cons v t ih =>
      intro i h
      cases i with
      | zero =>
          simp only [List.getD_cons_zero] at h
          simp only [List.map_cons, List.getD_cons_zero, h, hf]
      | succ j =>
          simp only [List.getD_cons_succ] at h
          simp only [List.map_cons, List.getD_cons_succ]
          exact ih j h

/-- C10: type conversion never materialises a value from a missing cell: a
cell that is Missing before convertColumn (and before the post-merge
rescanColumn) is still Missing at the same position afterwards, for every
column of every table. -/
theorem C10_missing_cells_preserved (d : Dtype) (vs : List Value) (i : Nat)
    (h : vs.getD i Value.vmissing = Value.vmissing) :
    (convertColumn d vs).2.getD i Value.vmissing = Value.vmissing ∧
    (rescanColumn d vs).2.getD i Value.vmissing = Value.vmissing := by
  constructor
  · unfold convertColumn
    by_cases h1 : d = Dtype.object ∧ 0 < nonMissingCount (vs.map parseDateCell)
    · rw [if_pos h1]
      exact getD_map_missing parseDateCell rfl vs i h
    · rw [if_neg h1]
      by_cases h2 : d = Dtype.object ∧
          (vs.length : ℚ) * (1 / 2) < (nonMissingCount (vs.map parseNumCell) : ℚ)
      · rw [if_pos h2]
        exact getD_map_missing parseNumCell rfl vs i h
      · rw [if_neg h2]
        exact h
  · unfold rescanColumn
    by_cases h1 : d = Dtype.object ∧
        vs.all (fun v => v.isMissing || !(parseDateCell v).isMissing) = true
    · rw [if_pos h1]
      exact getD_map_missing parseDateCell rfl vs i h
    · rw [if_neg h1]
      exact h

/-- Witness for C10 on a concrete column with a missing cell among parseable
dates. -/
theorem C10_missing_cells_preserved_witness :
    (convertColumn Dtype.object [Value.vmissing, Value.vstr "2021-01-05"]).2.getD 0
        Value.vmissing = Value.vmissing ∧
    (rescanColumn Dtype.object [Value.vmissing, Value.vstr "2021-01-05"]).2.getD 0
        Value.vmissing = Value.vmissing :=
  C10_missing_cells_preserved Dtype.object [Value.vmissing, Value.vstr "2021-01-05"] 0 (by decide)

/-- A table, row-major: a pandas DataFrame carrying a default RangeIndex. -/
structure Table where
  header : List String
  rows : List (List Value)
  deriving DecidableEq

/-- Index of the first column with the given name, as pandas column lookup
resolves names. -/
def colIdx : List String → String → Option Nat
  | [], _ => none
  | h :: t, c => if h = c then some 0 else (colIdx t c).map (· + 1)

/-- Row i of a table under index alignment: the row itself in range, a row
of Missing cells beyond the table's end. -/
def rowAt (t : Table) (i : Nat) : List Value :=
  if i < t.rows.length then t.rows.getD i []
  else List.replicate t.header.length Value.vmissing

/-- The value of row i at the first column named c (Missing when the row or
the column is absent). -/
def cellAt (t : Table) (i : Nat) (c : String) : Value :=
  match colIdx t.header c with
  | some j => (t.rows.getD i []).getD j Value.vmissing
  | none => Value.vmissing

/-- ColumnConcat, 水平合并 (src/app.py line 231): pd.concat(axis=1) on default
RangeIndexes aligns rows by position and pads the shorter frame's columns
with Missing; no row-count check is made and no error is raised.  Duplicate
column names are kept. -/
def columnConcat (A B : Table) : Table :=
  { header := A.header ++ B.header,
    rows := (List.range (max A.rows.length B.rows.length)).map
      (fun i => rowAt A i ++ rowAt B i) }

/-- One cell of a reindexed row: the row's value at the named column of the
original header, Missing when the source table lacks the column. -/
def reindexCell (hdr : List String) (r : List Value) (c : String) : Value :=
  match colIdx hdr c with
  | some i => r.getD i Value.vmissing
  | none => Value.vmissing

/-- reindex(columns=order) applied to one row: each requested column takes
the row's value at that column, a column the source table lacks delivers
Missing. -/
def reindexRow (hdr order : List String) (r : List Value) : List Value :=
  order.map (reindexCell hdr r)

/-- RowAppend, 垂直合并 (src/app.py lines 224-228): both frames are reindexed to
all_columns = list(set(df1.columns) | set(df2.columns)) and concatenated
with ignore_index=True.  Python's set iteration order is unspecified, so
the column enumeration is an explicit parameter; a faithful run supplies
any enumeration of the union of the two headers. -/
def rowAppend (order : List String) (A B : Table) : Table :=
  { header := order,
    rows := A.rows.map (reindexRow A.header order) ++
      B.rows.map (reindexRow B.header order) }

/-- colIdx finds nothing exactly when the name is absent. -/
lemma colIdx_none_iff (hdr : List String) (c : String) : colIdx hdr c = none ↔ c ∉ hdr := by
  induction hdr with
  | nil => simp [colIdx]
  | cons h t ih =>
      by_cases he : h = c
      · subst he
        simp [colIdx]
      · simp only [colIdx, if_neg he, Option.map_eq_none', ih, List.mem_cons]
        constructor
        · intro hnt hor
          rcases hor with h1 | h2
          · exact he h1.symm
          · exact hnt h2
        · intro hni h2
          exact hni (Or.inr h2)

/-- colIdx returns an in-range index pointing at the requested name. -/
lemma colIdx_some_spec (hdr : List String) (c : String) :
    ∀ j, colIdx hdr c = some j → j < hdr.length ∧ hdr.getD j "" = c := by
  induction hdr with
  | nil => intro j h; simp [colIdx] at h
  | cons hd t ih =>
      intro j h
      by_cases he : hd = c
      · rw [colIdx, if_pos he] at h
        injection h with h
        subst h
        exact ⟨by simp, by simpa using he⟩
      · rw [colIdx, if_neg he] at h
        cases e : colIdx t c with
        | none => rw [e] at h; simp at h
        | some j' =>
            rw [e] at h
            simp only [Option.map_some'] at h
            injection h with h
            subst h
            obtain ⟨h1, h2⟩ := ih j' e
            exact ⟨by simpa using Nat.succ_lt_succ h1, by simpa using h2⟩

/-- A present name has an index. -/
lemma colIdx_isSome_of_mem (hdr : List String) (c : String) (h : c ∈ hdr) :
    ∃ j, colIdx hdr c = some j := by
  cases e : colIdx hdr c with
  | none => exact absurd h ((colIdx_none_iff hdr c).mp e)
  | some j => exact ⟨j, rfl⟩

/-- A three-row single-column table. -/
def exA3 : Table := ⟨["a"], [[Value.vint 1], [Value.vint 2], [Value.vint 3]]⟩

/-- A two-row single-column table. -/
def exB3 : Table := ⟨["b"], [[Value.vstr "x"], [Value.vstr "y"]]⟩

/-- C3: requesting ColumnConcat of a 3-row table with a 2-row table does not
fail with SchemaMismatch — pd.concat(axis=1) succeeds and returns a padded
3-row result, the missing third row of the shorter table filled with
Missing. -/
theorem C3_counterexample :
    columnConcat exA3 exB3 =
      ⟨["a", "b"],
       [[Value.vint 1, Value.vstr "x"],
        [Value.vint 2, Value.vstr "y"],
        [Value.vint 3, Value.vmissing]]⟩ := by
  decide

/-- C3, amended: ColumnConcat of two tables with differing row counts
succeeds (no SchemaMismatch is raised): the result has max(|A|,|B|) rows,
its columns are A's followed by B's, and each row is A's row (or Missing
padding past A's end) followed by B's row (or Missing padding past B's
end). -/
theorem C3_amended (A B : Table) (i : Nat)
    (hi : i < max A.rows.length B.rows.length) :
    (columnConcat A B).rows.length = max A.rows.length B.rows.length ∧
    (columnConcat A B).header = A.header ++ B.header ∧
    (columnConcat A B).rows.getD i [] = rowAt A i ++ rowAt B i := by
  refine ⟨by simp [columnConcat], rfl, ?_⟩
  show ((List.range (max A.rows.length B.rows.length)).map
      (fun i => rowAt A i ++ rowAt B i)).getD i [] = _
  rw [List.getD_eq_getElem _ _ (by simpa using hi)]
  simp

/-- Witness for C3_amended at the 3-row/2-row pair, reading the padded
third row. -/
theorem C3_amended_witness :
    (columnConcat exA3 exB3).rows.length = max exA3.rows.length exB3.rows.length ∧
    (columnConcat exA3 exB3).header = exA3.header ++ exB3.header ∧
    (columnConcat exA3 exB3).rows.getD 2 [] = rowAt exA3 2 ++ rowAt exB3 2 :=
  C3_amended exA3 exB3 2 (by decide)

/-- One-row table with the single column a. -/
def exA7 : Table := ⟨["a"], [[Value.vint 1]]⟩

/-- One-row table with the single column b. -/
def exB7 : Table := ⟨["b"], [[Value.vint 2]]⟩

/-- C7: the RowAppend column order is list(set(A.columns) | set(B.columns)),
an unspecified Python set iteration order.  The enumeration b,a is a
permutation of the union, and under it the result's columns are not A's
columns followed by B-only columns, refuting the claimed left-first order
(row count, union column set and Missing padding do hold, see the amended
theorem). -/
theorem C7_counterexample :
    (["b", "a"] : List String).Perm ["a", "b"] ∧
    rowAppend ["b", "a"] exA7 exB7 =
      ⟨["b", "a"], [[Value.vmissing, Value.vint 1], [Value.vint 2, Value.vmissing]]⟩ ∧
    (["b", "a"] : List String) ≠ ["a", "b"] := by
  refine ⟨List.Perm.swap "a" "b" [], by decide, by decide⟩

/-- Unfolding equation for cellAt. -/
lemma cellAt_def (t : Table) (i : Nat) (c : String) :
    cellAt t i c =
      match colIdx t.header c with
      | some j => (t.rows.getD i []).getD j Value.vmissing
      | none => Value.vmissing := rfl

/-- getD through a map at an in-range index. -/
lemma getD_map' {α β : Type} (f : α → β) (l : List α) (j : Nat) (db : β) (da : α)
    (hj : j < l.length) :
    (l.map f).getD j db = f (l.getD j da) := by
  rw [List.getD_eq_getElem _ _ (by simpa using hj), List.getElem_map,
    List.getD_eq_getElem _ _ hj]

/-- C7, amended: for every pair of tables and every enumeration of the
union of their column names (the enumeration itself is unspecified Python
set iteration order, not A-first), the RowAppend merge has |A| + |B| rows —
A's reindexed rows first, then B's, source order preserved — and a row reads
the source cell at a column its source table has and Missing at a column it
lacks. -/
theorem C7_amended (A B : Table) (order : List String)
    (horder : ∀ c, c ∈ order ↔ (c ∈ A.header ∨ c ∈ B.header)) :
    (rowAppend order A B).rows.length = A.rows.length + B.rows.length ∧
    (∀ i c, i < A.rows.length →
      cellAt (rowAppend order A B) i c =
        if c ∈ A.header then cellAt A i c else Value.vmissing) ∧
    (∀ i c, i < B.rows.length →
      cellAt (rowAppend order A B) (A.rows.length + i) c =
        if c ∈ B.header then cellAt B i c else Value.vmissing) := by
  have hrfl : (rowAppend order A B).header = order := rfl
  have hA : ∀ i, i < A.rows.length →
      (rowAppend order A B).rows.getD i [] =
        reindexRow A.header order (A.rows.getD i []) := by
    intro i hi
    show ((A.rows.map (reindexRow A.header order)) ++
        (B.rows.map (reindexRow B.header order))).getD i [] = _
    rw [List.getD_append _ _ _ _ (by simpa using hi)]
    exact getD_map' _ _ _ _ _ hi
  have hB : ∀ i, i < B.rows.length →
      (rowAppend order A B).rows.getD (A.rows.length + i) [] =
        reindexRow B.header order (B.rows.getD i []) := by
    intro i hi
    show ((A.rows.map (reindexRow A.header order)) ++
        (B.rows.map (reindexRow B.header order))).getD (A.rows.length + i) [] = _
    rw [List.getD_append_right _ _ _ _ (by simp)]
    simp only [List.length_map, Nat.add_sub_cancel_left]
    exact getD_map' _ _ _ _ _ hi
  refine ⟨by simp [rowAppend], ?_, ?_⟩
  · intro i c hi
    by_cases hcA : c ∈ A.header
    · rw [if_pos hcA]
      obtain ⟨j, hj⟩ := colIdx_isSome_of_mem order c ((horder c).mpr (Or.inl hcA))
      obtain ⟨hjl, hjv⟩ := colIdx_some_spec order c j hj
      obtain ⟨k, hk⟩ := colIdx_isSome_of_mem A.header c hcA
      rw [cellAt_def, hrfl, hj, hA i hi]
      show (order.map (reindexCell A.header (A.rows.getD i []))).getD j Value.vmissing
        = cellAt A i c
      rw [getD_map' _ _ _ _ "" hjl, hjv]
      unfold reindexCell
      rw [cellAt_def, hk]
    · rw [if_neg hcA, cellAt_def, hrfl]
      cases e : colIdx order c with
      | none => rfl
      | some j =>
          obtain ⟨hjl, hjv⟩ := colIdx_some_spec order c j e
          show ((rowAppend order A B).rows.getD i []).getD j Value.vmissing = Value.vmissing
          rw [hA i hi]
          show (order.map (reindexCell A.header (A.rows.getD i []))).getD j Value.vmissing
            = Value.vmissing
          rw [getD_map' _ _ _ _ "" hjl, hjv]
          unfold reindexCell
          rw [(colIdx_none_iff A.header c).mpr hcA]
  · intro i c hi
    by_cases hcB : c ∈ B.header
    · rw [if_pos hcB]
      obtain ⟨j, hj⟩ := colIdx_isSome_of_mem order c ((horder c).mpr (Or.inr hcB))
      obtain ⟨hjl, hjv⟩ := colIdx_some_spec order c j hj
      obtain ⟨k, hk⟩ := colIdx_isSome_of_mem B.header c hcB
      rw [cellAt_def, hrfl, hj, hB i hi]
      show (order.map (reindexCell B.header (B.rows.getD i []))).getD j Value.vmissing
        = cellAt B i c
      rw [getD_map' _ _ _ _ "" hjl, hjv]
      unfold reindexCell
      rw [cellAt_def, hk]
    · rw [if_neg hcB, cellAt_def, hrfl]
      cases e : colIdx order c with
      | none => rfl
      | some j =>
          obtain ⟨hjl, hjv⟩ := colIdx_some_spec order c j e
          show ((rowAppend order A B).rows.getD (A.rows.length + i) []).getD j Value.vmissing
            = Value.vmissing
          rw [hB i hi]
          show (order.map (reindexCell B.header (B.rows.getD i []))).getD j Value.vmissing
            = Value.vmissing
          rw [getD_map' _ _ _ _ "" hjl, hjv]
          unfold reindexCell
          rw [(colIdx_none_iff B.header c).mpr hcB]

/-- Witness for C7_amended on the one-column tables under the enumeration
b,a of the union. -/
theorem C7_amended_witness :
    (rowAppend ["b", "a"] exA7 exB7).rows.length = exA7.rows.length + exB7.rows.length ∧
    cellAt (rowAppend ["b", "a"] exA7 exB7) 0 "b" =
      (if "b" ∈ exA7.header then cellAt exA7 0 "b" else Value.vmissing) ∧
    cellAt (rowAppend ["b", "a"] exA7 exB7) (exA7.rows.length + 0) "b" =
      (if "b" ∈ exB7.header then cellAt exB7 0 "b" else Value.vmissing) := by
  have h := C7_amended exA7 exB7 ["b", "a"]
    (by intro c; simp [exA7, exB7, or_comm])
  exact ⟨h.1, h.2.1 0 "b" (by decide), h.2.2 0 "b" (by decide)⟩

/-- Aggregation methods offered by the match module (src/app.py lines
406-434): 第一个值 first, 求和 sum, 平均值 mean, 最大值 max, 最小值 min,
计数 count, 连接(逗号分隔) concat. -/
inductive AggMethod where
  | first
  | asum
  | amean
  | amax
  | amin
  | acount
  | aconcat
  deriving DecidableEq

/-- One configured field of field_settings (src/app.py lines 443-446): the
lookup column, its aggregation method and the requested output column
name. -/
structure FieldSpec where
  field : String
  agg : AggMethod
  newName : String
  deriving DecidableEq

/-- Worker of dedupByKey, carrying the keys already seen. -/
def dedupKeyGo (seen : List Value) : List (Value × Value) → List (Value × Value)
  | [] => []
  | p :: rest =>
      if p.1 ∈ seen then dedupKeyGo seen rest
      else p :: dedupKeyGo (p.1 :: seen) rest

/-- drop_duplicates(subset=[lookup_key], keep=first) on (key, value) pairs
(src/app.py line 465): the first whole row of each key survives, whether or
not its field value is missing. -/
def dedupByKey (l : List (Value × Value)) : List (Value × Value) := dedupKeyGo [] l

/-- First-seen distinct values of a list. -/
def dedupValsGo (seen : List Value) : List Value → List Value
  | [] => []
  | v :: rest =>
      if v ∈ seen then dedupValsGo seen rest
      else v :: dedupValsGo (v :: seen) rest

/-- groupby group keys: the distinct non-missing key values (pandas groupby
drops missing keys).  Pandas also sorts the group keys; no verified claim
depends on the key order, and first-seen order is used here. -/
def groupKeys (l : List (Value × Value)) : List Value :=
  dedupValsGo [] ((l.map Prod.fst).filter (fun k => !k.isMissing))

/-- The field values of one key's group, in original row order. -/
def groupVals (l : List (Value × Value)) (k : Value) : List Value :=
  (l.filter (fun p => p.1 == k)).map Prod.snd

/-- Numeric reading of a cell for the numeric reductions. -/
def toRat : Value → Option ℚ
  | .vint n => some (n : ℚ)
  | .vfloat q => some q
  | _ => none

/-- One group reduced by a groupby method, skipping missing values as pandas
does: sum of an empty group is 0, mean/min of an empty group is missing,
count counts non-missing values, concat joins the stringified non-missing
values with a comma separator.  The UI offers the numeric methods only on
numeric columns.  first is handled by dedupByKey and max never reaches a
reduction (its branch raises beforehand), so both are unreachable here. -/
def aggValues (m : AggMethod) (vals : List Value) : Value :=
  match m with
  | .first => Value.vmissing
  | .amax => Value.vmissing
  | .asum => Value.vfloat ((vals.filterMap toRat).foldl (· + ·) 0)
  | .amean =>
      match vals.filterMap toRat with
      | [] => Value.vmissing
      | q :: qs => Value.vfloat ((q :: qs).foldl (· + ·) 0 / (((q :: qs).length : ℚ)))
  | .amin =>
      match vals.filterMap toRat with
      | [] => Value.vmissing
      | q :: qs => Value.vfloat (qs.foldl min q)
  | .acount => Value.vint (vals.countP (fun v => !v.isMissing) : Nat)
  | .aconcat =>
      Value.vstr (String.intercalate ", " ((vals.filter (fun v => !v.isMissing)).map pyStr))

/-- Per-field aggregation of temp_lookup = lookup_df[[lookup_key, field]]
(src/app.py lines 463-479): 第一个值 keeps the first row per raw key; the
groupby methods produce one row per distinct non-missing raw key; the
最大值 branch calls the nonexistent method resetindex (line 471, where every
sibling branch calls reset_index) and so raises AttributeError, which the
surrounding try/except turns into a reported match failure. -/
def aggregateField (m : AggMethod) (pairs : List (Value × Value)) :
    Except String (List (Value × Value)) :=
  match m with
  | .first => .ok (dedupByKey pairs)
  | .amax => .error "AttributeError: resetindex"
  | _ => .ok ((groupKeys pairs).map (fun k => (k, aggValues m (groupVals pairs k))))

/-- df[key] = df[key].astype(str).str.strip() (src/app.py line 482; the same
statement at lines 237-238 is the key join's in-place normalization of its
input frames): the first column named key is overwritten by its trimmed
string form.  Without the column the source raises KeyError; the callers
modelled here check presence first and pass the frame through. -/
def normalizeKeyCol (t : Table) (key : String) : Table :=
  match colIdx t.header key with
  | some j =>
      ⟨t.header,
       t.rows.map (fun r => r.set j (Value.vstr (normCell (r.getD j Value.vmissing))))⟩
  | none => t

/-- Suffix rule of merge(suffixes=(empty, _match)): an appended right column
whose name collides with an existing left column receives _match. -/
def mergeSfx (leftHdr : List String) (c : String) : String :=
  if leftHdr.contains c then c ++ "_match" else c

/-- The result rows one main row produces in the how=left merge against the
aggregated key-normalized lookup pairs: one Missing-padded row when its key
matches nothing, else one row per matching lookup entry.  same tells whether
right_on equals left_on; when they differ the appended cells also carry the
right key column. -/
def mergeRow (i : Nat) (same : Bool) (agg : List (String × Value)) (r : List Value) :
    List (List Value) :=
  if (agg.filter (fun p => p.1 == pyStr (r.getD i Value.vmissing))).isEmpty then
    [r ++ (if same then [Value.vmissing] else [Value.vmissing, Value.vmissing])]
  else
    (agg.filter (fun p => p.1 == pyStr (r.getD i Value.vmissing))).map
      (fun p => r ++ (if same then [p.2] else [Value.vstr p.1, p.2]))

/-- One merge of the working frame with an aggregated two-column lookup
(src/app.py lines 481-492): the main key column is normalized in place
(on result_df, a copy of the main table), then result_df.merge(temp_lookup,
how=left, left_on=main_key, right_on=lookup_key, suffixes=(empty, _match)).
When the two key names are equal pandas keeps a single key column, else the
right key column is appended too. -/
def mergeStep (t : Table) (mk lk f : String) (agg : List (String × Value)) : Table :=
  ⟨(normalizeKeyCol t mk).header ++
      (if lk == mk then [f] else [lk, f]).map (mergeSfx (normalizeKeyCol t mk).header),
   (normalizeKeyCol t mk).rows.flatMap
      (mergeRow ((colIdx (normalizeKeyCol t mk).header mk).getD 0) (lk == mk) agg)⟩

/-- pandas rename: every column named old becomes new. -/
def renameCols (hdr : List String) (old nw : String) : List String :=
  hdr.map (fun c => if c == old then nw else c)

/-- The conditional rename after a field merge (src/app.py lines 495-496):
if the field name is still a column of the result, rename it to the
configured output name. -/
def matchRename (t : Table) (f nw : String) : Table :=
  if t.header.contains f then ⟨renameCols t.header f nw, t.rows⟩ else t

/-- One iteration of the per-field loop of 执行智能匹配 (src/app.py lines
456-496): select [lookup_key, field] from the lookup frame, aggregate by the
field's method (the max branch raising AttributeError), normalize the
aggregated keys to trimmed strings, left-merge onto the working frame and
apply the conditional rename.  An absent named column is the source's
KeyError. -/
def matchStep (lookup : Table) (mk lk : String) (t : Table) (fs : FieldSpec) :
    Except String Table :=
  match colIdx t.header mk, colIdx lookup.header lk, colIdx lookup.header fs.field with
  | some _, some ki, some fi =>
      (aggregateField fs.agg
        (lookup.rows.map (fun r => (r.getD ki Value.vmissing, r.getD fi Value.vmissing)))).map
        (fun agged =>
          matchRename (mergeStep t mk lk fs.field
            (agged.map (fun p => (normCell p.1, p.2)))) fs.field fs.newName)
  | _, _, _ => .error "KeyError"

/-- Keep the columns at the given header indices. -/
def selectCols (t : Table) (idxs : List Nat) : Table :=
  ⟨idxs.map (fun i => t.header.getD i ""),
   t.rows.map (fun r => idxs.map (fun i => r.getD i Value.vmissing))⟩

/-- drop(columns=[c]): every column named c is removed (a no-op when the
name is absent, matching the source's in-check). -/
def dropCol (t : Table) (c : String) : Table :=
  selectCols t ((List.range t.header.length).filter
    (fun i => !(t.header.getD i "" == c)))

/-- result_df.loc[:, not columns.duplicated()] (src/app.py line 503): keep
the first column of each name, silently dropping the later duplicates. -/
def dedupCols (t : Table) : Table :=
  selectCols t ((List.range t.header.length).filter
    (fun i => !((t.header.take i).contains (t.header.getD i ""))))

/-- The whole match run (src/app.py lines 452-503): fold the per-field loop
over the field specs starting from result_df = main_df.copy(), then drop the
redundant lookup key column when it differs from the main key, then keep the
first column of each duplicated name. -/
def matchRun (main lookup : Table) (mk lk : String) (specs : List FieldSpec) :
    Except String Table := do
  let t ← specs.foldlM (fun t fs => matchStep lookup mk lk t fs) main
  let t2 := if lk ≠ mk then dropCol t lk else t
  pure (dedupCols t2)

/-- matched_count (src/app.py line 514): the number of result rows in which
at least one of the named output columns is non-missing
(result_df[matched_cols].notna().any(axis=1).sum(); the named columns exist
on the source's KeyError-free path). -/
def matchedCount (t : Table) (cols : List String) : Nat :=
  t.rows.countP (fun r => cols.any (fun c =>
    match colIdx t.header c with
    | some i => !(r.getD i Value.vmissing).isMissing
    | none => false))

/-- match_rate = (matched_count / len(result_df)) * 100 (src/app.py line
515), a float percentage.  On a zero-row result numpy evaluates the 0/0 as
NaN (RuntimeWarnings are suppressed at the top of the file), modelled as
none. -/
def matchRatePct (t : Table) (cols : List String) : Option ℚ :=
  if t.rows.length = 0 then none
  else some ((matchedCount t cols : ℚ) / (t.rows.length : ℚ) * 100)

/-- One-row main table with a string key. -/
def exMain8 : Table := ⟨["k"], [[Value.vstr "1"]]⟩

/-- One-row lookup table with a matching key and an integer field. -/
def exLookup8 : Table := ⟨["k", "v"], [[Value.vstr "1", Value.vint 10]]⟩

/-- C8: aggregating the field v with the 最大值 (Max) method does not
succeed: the run aborts with AttributeError because line 471 of src/app.py
invokes the nonexistent method resetindex where every sibling aggregation
branch invokes reset_index — the claim describes the evident intent and the
code contradicts it. -/
theorem C8_max_aggregation_crashes :
    matchRun exMain8 exLookup8 "k" "k" [⟨"v", AggMethod.amax, "匹配_v"⟩] =
      Except.error "AttributeError: resetindex" := rfl

/-- A key group whose first row carries a missing field value. -/
def exPairs9 : List (Value × Value) :=
  [(Value.vstr "1", Value.vmissing), (Value.vstr "1", Value.vint 10)]

/-- The spec's reading of First: the first non-missing field value of the
group in original row order, for comparison with aggregateField. -/
def specFirstValue (pairs : List (Value × Value)) (k : Value) : Option Value :=
  ((pairs.filter (fun p => p.1 == k)).map Prod.snd).find? (fun v => !v.isMissing)

/-- C9: on a key group whose first row has a Missing field value,
drop_duplicates(keep=first) retains that Missing value, while the claim's
first-non-missing reading would produce 10; the leading Missing is returned,
not skipped. -/
theorem C9_counterexample :
    aggregateField AggMethod.first exPairs9 = .ok [(Value.vstr "1", Value.vmissing)] ∧
    specFirstValue exPairs9 (Value.vstr "1") = some (Value.vint 10) ∧
    Value.vmissing ≠ Value.vint 10 := by
  refine ⟨rfl, rfl, by decide⟩

/-- One-row main table whose key trims to the same string as two distinct
lookup keys. -/
def exMain4 : Table := ⟨["k"], [[Value.vstr "1"]]⟩

/-- Lookup table with two raw-distinct keys, " 1" and "1", that normalize to
the same trimmed string. -/
def exLookup4 : Table :=
  ⟨["k", "v"], [[Value.vstr " 1", Value.vint 10], [Value.vstr "1", Value.vint 20]]⟩

/-- C4: a match run on a 1-row main table returns 2 rows.  The lookup keys
" 1" and "1" are distinct when drop_duplicates aggregates (keep=first keeps
both rows), and only afterwards are they normalized to the same trimmed
string "1" (src/app.py line 483), so the left join multiplies the single
main row. -/
theorem C4_counterexample :
    matchRun exMain4 exLookup4 "k" "k" [⟨"v", AggMethod.first, "mv"⟩] =
      Except.ok ⟨["k", "mv"],
        [[Value.vstr "1", Value.vint 10], [Value.vstr "1", Value.vint 20]]⟩ ∧
    exMain4.rows.length = 1 := by
  exact ⟨rfl, rfl⟩

/-- One-row main table for the duplicate-output-name run. -/
def exMain5 : Table := ⟨["k"], [[Value.vstr "1"]]⟩

/-- Lookup table with two fields a and b to be given the same output name. -/
def exLookup5 : Table :=
  ⟨["k", "a", "b"], [[Value.vstr "1", Value.vint 10, Value.vint 20]]⟩

/-- C5: a match configuration giving both fields the output name out does
not fail with DuplicateFieldName: the run succeeds and the final
columns.duplicated() cleanup silently keeps only the first out column
(field a's value 10), discarding field b's value 20. -/
theorem C5_counterexample :
    matchRun exMain5 exLookup5 "k" "k"
        [⟨"a", AggMethod.first, "out"⟩, ⟨"b", AggMethod.first, "out"⟩] =
      Except.ok ⟨["k", "out"], [[Value.vstr "1", Value.vint 10]]⟩ := rfl

/-- Two-row main table, one key matched by the lookup and one not. -/
def exMain1 : Table := ⟨["k"], [[Value.vstr "1"], [Value.vstr "2"]]⟩

/-- One-row lookup table matching only the first main key. -/
def exLookup1 : Table := ⟨["k", "v"], [[Value.vstr "1", Value.vint 10]]⟩

/-- The result table of the C1 run: key 1 matched, key 2 unmatched. -/
def exT1 : Table :=
  ⟨["k", "mv"], [[Value.vstr "1", Value.vint 10], [Value.vstr "2", Value.vmissing]]⟩

/-- C1: on a run matching 1 of 2 rows the source's match_rate variable holds
(matched/total)*100 = 50, which is neither matched/total = 1/2 nor inside
[0, 1]: the rate is a float percentage, not a fraction. -/
theorem C1_counterexample :
    matchRun exMain1 exLookup1 "k" "k" [⟨"v", AggMethod.first, "mv"⟩] =
      Except.ok exT1 ∧
    matchRatePct exT1 ["mv"] = some 50 ∧
    ¬ ((50 : ℚ) ≤ 1) := by
  refine ⟨rfl, ?_, by norm_num⟩
  unfold matchRatePct
  rw [if_neg (by decide)]
  have h1 : matchedCount exT1 ["mv"] = 1 := by decide
  have h2 : exT1.rows.length = 2 := rfl
  rw [h1, h2]
  norm_num

/-- A one-row table with an integer key column and a string payload
column. -/
def exDf6 : Table := ⟨["k", "x"], [[Value.vint 5, Value.vstr "a"]]⟩

/-- C6: the key join mutates its inputs: lines 237-238 of src/app.py assign
df1[merge_on] = df1[merge_on].astype(str).str.strip() on the caller's
frames, so after the merge the caller's df1 holds normalizeKeyCol df1 key,
which differs from the original (the Integer key 5 became the String
"5") — the operation does not leave its input tables unchanged. -/
theorem C6_counterexample : normalizeKeyCol exDf6 "k" ≠ exDf6 := by decide

/-- dedupKeyGo keeps exactly the first pair of each not-yet-seen key. -/
lemma dedupKeyGo_filter (k : Value) :
    ∀ (l : List (Value × Value)) (seen : List Value),
      (dedupKeyGo seen l).filter (fun p => p.1 == k) =
        if k ∈ seen then [] else (l.filter (fun p => p.1 == k)).take 1 := by
  intro l
  induction l with
  | nil =>
      intro seen
      by_cases h : k ∈ seen <;> simp [dedupKeyGo, h]
  | cons p rest ih =>
      intro seen
      by_cases hp : p.1 ∈ seen
      · have e : dedupKeyGo seen (p :: rest) = dedupKeyGo seen rest := by
          simp only [dedupKeyGo, if_pos hp]
        rw [e, ih seen]
        by_cases hk : k ∈ seen
        · rw [if_pos hk, if_pos hk]
        · rw [if_neg hk, if_neg hk]
          have hpk : (p.1 == k) = false := by
            rw [beq_eq_false_iff_ne]
            intro h
            exact hk (h ▸ hp)
          rw [List.filter_cons, hpk]
          simp
      · have e : dedupKeyGo seen (p :: rest) = p :: dedupKeyGo (p.1 :: seen) rest := by
          simp only [dedupKeyGo, if_neg hp]
        rw [e]
        by_cases hpk : p.1 = k
        · subst hpk
          rw [List.filter_cons, if_pos (by simp), ih (p.1 :: seen),
            if_pos (List.mem_cons_self p.1 seen), if_neg hp,
            List.filter_cons, if_pos (by simp)]
          simp
        · have hmem : ¬ k ∈ p.1 :: seen → ¬ k ∈ seen := fun h hk =>
            h (List.mem_cons_of_mem p.1 hk)
          rw [List.filter_cons, if_neg (by simp [hpk]), ih (p.1 :: seen)]
          by_cases hk : k ∈ seen
          · rw [if_pos (List.mem_cons_of_mem p.1 hk), if_pos hk]
          · rw [if_neg ?hnotin, if_neg hk]
            · rw [List.filter_cons, if_neg (by simp [hpk])]
            case hnotin =>
              intro h
              rcases List.mem_cons.mp h with h1 | h2
              · exact hpk h1.symm
              · exact hk h2

/-- C9, amended: the First aggregation keeps, for every key, exactly the
first whole row of that key in original row order — drop_duplicates of the
(key, field) frame with keep=first — so the retained field value is the
first row's value even when that value is Missing (the claim's skip to the
first non-missing value does not happen). -/
theorem C9_amended (pairs : List (Value × Value)) (k : Value) :
    ∃ l, aggregateField AggMethod.first pairs = .ok l ∧
      l.filter (fun p => p.1 == k) = (pairs.filter (fun p => p.1 == k)).take 1 := by
  refine ⟨dedupByKey pairs, rfl, ?_⟩
  have h := dedupKeyGo_filter k pairs []
  simpa [dedupByKey] using h

/-- With pairwise-distinct keys, a key filter retains at most one entry. -/
lemma nodup_filter_len_le_one (l : List (String × Value)) (k : String)
    (h : (l.map Prod.fst).Nodup) :
    (l.filter (fun p => p.1 == k)).length ≤ 1 := by
  induction l with
  | nil => simp
  | cons p rest ih =>
      simp only [List.map_cons, List.nodup_cons] at h
      obtain ⟨hnm, hnd⟩ := h
      by_cases hp : p.1 = k
      · have hrest : rest.filter (fun q => q.1 == k) = [] := by
          rw [List.filter_eq_nil_iff]
          intro q hq hbeq
          rw [beq_iff_eq] at hbeq
          exact hnm (List.mem_map.mpr ⟨q, hq, by rw [hbeq, hp]⟩)
        rw [List.filter_cons, if_pos (by simp [hp]), hrest]
        simp
      · rw [List.filter_cons, if_neg (by simp [hp])]
        exact ih hnd

/-- Under distinct aggregated keys, every main row produces exactly one
merged row, and dropping the appended cells recovers the main row. -/
lemma mergeRow_spec (i : Nat) (same : Bool) (agg : List (String × Value))
    (hnodup : (agg.map Prod.fst).Nodup) (w : Nat) (r : List Value) (hw : r.length = w) :
    (mergeRow i same agg r).length = 1 ∧
    ∀ x ∈ mergeRow i same agg r, x.take w = r := by
  unfold mergeRow
  by_cases he : (agg.filter (fun p => p.1 == pyStr (r.getD i Value.vmissing))).isEmpty = true
  · rw [if_pos he]
    refine ⟨rfl, ?_⟩
    intro x hx
    rw [List.mem_singleton] at hx
    subst hx
    exact List.take_left' hw
  · rw [if_neg he]
    have hne : agg.filter (fun p => p.1 == pyStr (r.getD i Value.vmissing)) ≠ [] := by
      intro h
      exact he (by rw [h]; rfl)
    have h1 : (agg.filter (fun p => p.1 == pyStr (r.getD i Value.vmissing))).length = 1 := by
      have hle := nodup_filter_len_le_one agg (pyStr (r.getD i Value.vmissing)) hnodup
      have hpos := List.length_pos.mpr hne
      omega
    obtain ⟨p, hp⟩ := List.length_eq_one.mp h1
    rw [hp]
    refine ⟨rfl, ?_⟩
    intro x hx
    simp only [List.map_cons, List.map_nil, List.mem_singleton] at hx
    subst hx
    exact List.take_left' hw

/-- flatMap over a one-output-per-row function is length- and
row-preserving. -/
lemma flatMap_singleton_spec (g : List Value → List (List Value)) (w : Nat) :
    ∀ (rs : List (List Value)),
      (∀ r ∈ rs, (g r).length = 1 ∧ ∀ x ∈ g r, x.take w = r) →
      (rs.flatMap g).length = rs.length ∧
      (rs.flatMap g).map (fun x => x.take w) = rs := by
  intro rs
  induction rs with
  | nil => intro _; exact ⟨rfl, rfl⟩
  | cons r rest ih =>
      intro h
      have hr := h r (List.mem_cons_self r rest)
      have hrest := ih (fun x hx => h x (List.mem_cons_of_mem r hx))
      rw [List.flatMap_cons]
      constructor
      · rw [List.length_append, hr.1, hrest.1, List.length_cons]
        omega
      · rw [List.map_append, hrest.2]
        obtain ⟨x, hx⟩ := List.length_eq_one.mp hr.1
        rw [hx]
        simp only [List.map_cons, List.map_nil]
        rw [hr.2 x (by rw [hx]; exact List.mem_singleton_self x)]
        rfl

/-- normalizeKeyCol keeps the header. -/
lemma normalizeKeyCol_header (t : Table) (key : String) :
    (normalizeKeyCol t key).header = t.header := by
  unfold normalizeKeyCol
  cases colIdx t.header key <;> rfl

/-- normalizeKeyCol keeps the row count. -/
lemma normalizeKeyCol_rows_length (t : Table) (key : String) :
    (normalizeKeyCol t key).rows.length = t.rows.length := by
  unfold normalizeKeyCol
  cases colIdx t.header key <;> simp

/-- normalizeKeyCol keeps each row's width. -/
lemma normalizeKeyCol_row_lengths (t : Table) (key : String)
    (hrect : ∀ r ∈ t.rows, r.length = t.header.length) :
    ∀ r ∈ (normalizeKeyCol t key).rows, r.length = t.header.length := by
  unfold normalizeKeyCol
  cases colIdx t.header key with
  | none => exact hrect
  | some j =>
      intro r hr
      simp only [List.mem_map] at hr
      obtain ⟨r0, hr0, rfl⟩ := hr
      rw [List.length_set]
      exact hrect r0 hr0

/-- C4, amended: the left join preserves every main row and the main row
order — each result row extends its main row (with the key column
normalized to a trimmed string) — and produces exactly as many rows as the
main table provided the aggregated lookup keys are pairwise distinct after
normalization.  That proviso can fail: the source aggregates by raw key and
normalizes afterwards (src/app.py lines 463-483), so raw-distinct keys that
trim to the same string survive aggregation and multiply rows, as the
counterexample shows. -/
theorem C4_amended (t : Table) (mk lk f : String) (agg : List (String × Value))
    (hrect : ∀ r ∈ t.rows, r.length = t.header.length)
    (hnodup : (agg.map Prod.fst).Nodup) :
    (mergeStep t mk lk f agg).rows.length = t.rows.length ∧
    (mergeStep t mk lk f agg).rows.map (fun x => x.take t.header.length) =
      (normalizeKeyCol t mk).rows := by
  have hg := flatMap_singleton_spec
    (mergeRow ((colIdx (normalizeKeyCol t mk).header mk).getD 0) (lk == mk) agg)
    t.header.length (normalizeKeyCol t mk).rows
    (fun r hr => mergeRow_spec _ _ agg hnodup _ r
      (normalizeKeyCol_row_lengths t mk hrect r hr))
  refine ⟨?_, hg.2⟩
  rw [show (mergeStep t mk lk f agg).rows =
      (normalizeKeyCol t mk).rows.flatMap
        (mergeRow ((colIdx (normalizeKeyCol t mk).header mk).getD 0) (lk == mk) agg) from rfl,
    hg.1, normalizeKeyCol_rows_length]

/-- Witness for C4_amended on the one-row main table against a singleton
aggregated lookup. -/
theorem C4_amended_witness :
    (mergeStep exMain4 "k" "k" "v" [("1", Value.vint 10)]).rows.length =
      exMain4.rows.length ∧
    (mergeStep exMain4 "k" "k" "v" [("1", Value.vint 10)]).rows.map
      (fun x => x.take exMain4.header.length) = (normalizeKeyCol exMain4 "k").rows :=
  C4_amended exMain4 "k" "k" "v" [("1", Value.vint 10)] (by decide) (by decide)

/-- The rename keeps every differently-named column present. -/
lemma matchRename_mem_header (t : Table) (f nw mk : String) (hne : f ≠ mk)
    (hmk : mk ∈ t.header) : mk ∈ (matchRename t f nw).header := by
  unfold matchRename
  by_cases hc : t.header.contains f = true
  · rw [if_pos hc]
    refine List.mem_map.mpr ⟨mk, hmk, ?_⟩
    have hb : (mk == f) = false := by
      rw [beq_eq_false_iff_ne]
      intro h
      exact hne h.symm
    show (if mk == f then nw else mk) = mk
    simp [hb]
  · rw [if_neg hc]
    exact hmk

/-- The merge keeps the main key column present. -/
lemma mergeStep_mem_header (t : Table) (mk lk f : String) (agg : List (String × Value))
    (h : mk ∈ t.header) : mk ∈ (mergeStep t mk lk f agg).header := by
  show mk ∈ (normalizeKeyCol t mk).header ++
    (if lk == mk then [f] else [lk, f]).map (mergeSfx (normalizeKeyCol t mk).header)
  rw [normalizeKeyCol_header]
  exact List.mem_append_left _ h

/-- A per-field step succeeds whenever its named columns exist and its
method is not the broken max, and it keeps the main key column. -/
lemma matchStep_ok (lookup : Table) (mk lk : String) (t : Table) (fs : FieldSpec)
    (hmk : mk ∈ t.header) (hlk : lk ∈ lookup.header) (hf : fs.field ∈ lookup.header)
    (hagg : fs.agg ≠ AggMethod.amax) (hne : fs.field ≠ mk) :
    ∃ u, matchStep lookup mk lk t fs = .ok u ∧ mk ∈ u.header := by
  obtain ⟨j1, e1⟩ := colIdx_isSome_of_mem t.header mk hmk
  obtain ⟨j2, e2⟩ := colIdx_isSome_of_mem lookup.header lk hlk
  obtain ⟨j3, e3⟩ := colIdx_isSome_of_mem lookup.header fs.field hf
  have hstep : matchStep lookup mk lk t fs =
      (aggregateField fs.agg
        (lookup.rows.map (fun r => (r.getD j2 Value.vmissing, r.getD j3 Value.vmissing)))).map
        (fun agged =>
          matchRename (mergeStep t mk lk fs.field
            (agged.map (fun p => (normCell p.1, p.2)))) fs.field fs.newName) := by
    unfold matchStep
    rw [e1, e2, e3]
  obtain ⟨l, hl⟩ : ∃ l, aggregateField fs.agg
      (lookup.rows.map (fun r => (r.getD j2 Value.vmissing, r.getD j3 Value.vmissing))) =
        .ok l := by
    cases hfa : fs.agg with
    | amax => exact absurd hfa hagg
    | first => exact ⟨_, rfl⟩
    | asum => exact ⟨_, rfl⟩
    | amean => exact ⟨_, rfl⟩
    | amin => exact ⟨_, rfl⟩
    | acount => exact ⟨_, rfl⟩
    | aconcat => exact ⟨_, rfl⟩
  rw [hstep, hl]
  refine ⟨_, rfl, ?_⟩
  exact matchRename_mem_header _ fs.field fs.newName mk hne
    (mergeStep_mem_header _ _ _ _ _ hmk)

/-- The per-field fold succeeds under the per-spec conditions. -/
lemma matchLoop_ok (lookup : Table) (mk lk : String) (hlk : lk ∈ lookup.header) :
    ∀ (specs : List FieldSpec) (t : Table), mk ∈ t.header →
      (∀ s ∈ specs, s.agg ≠ AggMethod.amax ∧ s.field ∈ lookup.header ∧ s.field ≠ mk) →
      ∃ u, specs.foldlM (fun t fs => matchStep lookup mk lk t fs) t = .ok u := by
  intro specs
  induction specs with
  | nil =>
      intro t hmk _
      exact ⟨t, rfl⟩
  | cons s rest ih =>
      intro t hmk hs
      obtain ⟨h1, h2, h3⟩ := hs s (List.mem_cons_self s rest)
      obtain ⟨u, hu, humem⟩ := matchStep_ok lookup mk lk t s hmk hlk h2 h1 h3
      obtain ⟨w, hw⟩ := ih u humem (fun x hx => hs x (List.mem_cons_of_mem s hx))
      refine ⟨w, ?_⟩
      rw [List.foldlM_cons, hu]
      exact hw

/-- C5, amended: a match configuration in which two field specs share an
output name does not fail with DuplicateFieldName — no such check exists.
Whenever the named key and field columns exist and no field uses the broken
max method, the run returns a result table; colliding output columns are
resolved at the end by columns.duplicated(), which silently keeps the first
and discards the rest, as the counterexample exhibits concretely. -/
theorem C5_amended (main lookup : Table) (mk lk : String) (specs : List FieldSpec)
    (hmk : mk ∈ main.header) (hlk : lk ∈ lookup.header)
    (hs : ∀ s ∈ specs, s.agg ≠ AggMethod.amax ∧ s.field ∈ lookup.header ∧ s.field ≠ mk) :
    ∃ T, matchRun main lookup mk lk specs = Except.ok T := by
  obtain ⟨u, hu⟩ := matchLoop_ok lookup mk lk hlk specs main hmk hs
  refine ⟨dedupCols (if lk ≠ mk then dropCol u lk else u), ?_⟩
  unfold matchRun
  rw [hu]
  rfl

/-- Witness for C5_amended at the concrete duplicate-output-name run. -/
theorem C5_amended_witness :
    ∃ T, matchRun exMain5 exLookup5 "k" "k"
        [⟨"a", AggMethod.first, "out"⟩, ⟨"b", AggMethod.first, "out"⟩] =
      Except.ok T :=
  C5_amended exMain5 exLookup5 "k" "k"
    [⟨"a", AggMethod.first, "out"⟩, ⟨"b", AggMethod.first, "out"⟩]
    (by decide) (by decide) (by decide)

/-- C1, amended: matched_row_count is the number of result rows with at
least one non-missing value among the configured output columns, and the
source's match_rate is the percentage (matched/total)*100, which lies in
[0, 100] (not [0, 1]); on a zero-row result there is no zero guard and the
numpy 0/0 produces NaN (modelled none), not 0. -/
theorem C1_amended (t : Table) (cols : List String) :
    (t.rows.length = 0 → matchRatePct t cols = none) ∧
    (0 < t.rows.length →
      matchRatePct t cols =
        some ((matchedCount t cols : ℚ) / (t.rows.length : ℚ) * 100) ∧
      ∀ r, matchRatePct t cols = some r → 0 ≤ r ∧ r ≤ 100) := by
  constructor
  · intro h
    unfold matchRatePct
    rw [if_pos h]
  · intro h
    have hne : ¬ t.rows.length = 0 := by omega
    have heq : matchRatePct t cols =
        some ((matchedCount t cols : ℚ) / (t.rows.length : ℚ) * 100) := by
      unfold matchRatePct
      rw [if_neg hne]
    refine ⟨heq, ?_⟩
    intro r hr
    rw [heq] at hr
    injection hr with hr
    subst hr
    have hmle : matchedCount t cols ≤ t.rows.length := List.countP_le_length _
    have hn : (0 : ℚ) < (t.rows.length : ℚ) := by exact_mod_cast h
    constructor
    · positivity
    · have h1 : (matchedCount t cols : ℚ) / (t.rows.length : ℚ) ≤ 1 := by
        rw [div_le_one hn]
        exact_mod_cast hmle
      have h2 := mul_le_mul_of_nonneg_right h1 (by norm_num : (0 : ℚ) ≤ 100)
      simpa using h2

/-- Witness for C1_amended on the concrete half-matched result table. -/
theorem C1_amended_witness :
    matchRatePct exT1 ["mv"] =
      some ((matchedCount exT1 ["mv"] : ℚ) / (exT1.rows.length : ℚ) * 100) ∧
    (0 ≤ (matchedCount exT1 ["mv"] : ℚ) / (exT1.rows.length : ℚ) * 100 ∧
      (matchedCount exT1 ["mv"] : ℚ) / (exT1.rows.length : ℚ) * 100 ≤ 100) := by
  have h := (C1_amended exT1 ["mv"]).2 (by decide)
  exact ⟨h.1, h.2 _ h.1⟩

/-- getD is unchanged at positions other than the set one. -/
lemma getD_set_ne' (r : List Value) (j i : Nat) (x d : Value) (hij : i ≠ j) :
    (r.set j x).getD i d = r.getD i d := by
  rw [List.getD_eq_getD_get?, List.getD_eq_getD_get?,
    List.get?_set_ne x r (fun h => hij h.symm)]

/-- C6, amended: the in-place key normalization executed on the input frames
by the key join (src/app.py lines 237-238) and by the match setup rewrites
only the key column: the header, the row count and every cell of every
other column are unchanged, while the key column's cells become trimmed
strings (and so the inputs themselves are mutated whenever the key column
was not already in normalized string form, as the counterexample shows). -/
theorem C6_amended (t : Table) (key : String) :
    (normalizeKeyCol t key).header = t.header ∧
    (normalizeKeyCol t key).rows.length = t.rows.length ∧
    (∀ i c, c ≠ key → cellAt (normalizeKeyCol t key) i c = cellAt t i c) := by
  refine ⟨normalizeKeyCol_header t key, normalizeKeyCol_rows_length t key, ?_⟩
  intro i c hc
  simp only [cellAt_def, normalizeKeyCol_header]
  cases ec : colIdx t.header c with
  | none => rfl
  | some jc =>
      obtain ⟨hjcl, hjcv⟩ := colIdx_some_spec t.header c jc ec
      show ((normalizeKeyCol t key).rows.getD i []).getD jc Value.vmissing =
        (t.rows.getD i []).getD jc Value.vmissing
      cases ek : colIdx t.header key with
      | none =>
          have hid : normalizeKeyCol t key = t := by
            unfold normalizeKeyCol
            rw [ek]
          rw [hid]
      | some j =>
          obtain ⟨hjl, hjv⟩ := colIdx_some_spec t.header key j ek
          have hne : jc ≠ j := by
            intro h
            apply hc
            rw [← hjcv, h, hjv]
          have hrows : (normalizeKeyCol t key).rows =
              t.rows.map (fun r =>
                r.set j (Value.vstr (normCell (r.getD j Value.vmissing)))) := by
            unfold normalizeKeyCol
            rw [ek]
          rw [hrows]
          by_cases hi : i < t.rows.length
          · rw [getD_map' _ t.rows i [] [] hi]
            exact getD_set_ne' _ _ _ _ _ hne
          · rw [List.getD_eq_default
                (t.rows.map (fun r =>
                  r.set j (Value.vstr (normCell (r.getD j Value.vmissing))))) []
                (by simpa using Nat.le_of_not_lt hi),
              List.getD_eq_default t.rows [] (Nat.le_of_not_lt hi)]

/-- Witness for C6_amended: the non-key column x of exDf6 is untouched. -/
theorem C6_amended_witness :
    (normalizeKeyCol exDf6 "k").header = exDf6.header ∧
    (normalizeKeyCol exDf6 "k").rows.length = exDf6.rows.length ∧
    cellAt (normalizeKeyCol exDf6 "k") 0 "x" = cellAt exDf6 0 "x" := by
  have h := C6_amended exDf6 "k"
  exact ⟨h.1, h.2.1, h.2.2 0 "x" (by decide)⟩
